import Mathlib

/-!
Verification of the UGRID converter core
(`pyNastran/converters/ugrid/ugrid_reader.py`).

The Python source is shallowly embedded: byte streams are `List Nat`
(each entry `< 256`), 32-bit integers are read with their signed
interpretation into `Int`, floating-point node coordinates are kept as
raw bit patterns (`Nat` below `2 ^ (8 * width)`), and every fallible
operation returns `Except Err` or `Option`.  The element arrays of the
`UGRID` class become lists of rows.  Functions keep the source's names
where Lean's identifier syntax permits.
-/

namespace Ugrid
/-- Python exception kinds raised by the source code.  `assertionError`
carries the element row that a failed `assert` message displays. -/
inductive Err where
  | structError
  | valueError
  | runtimeError
  | keyError
  | indexError
  | notImplementedError
  | attributeError
  | assertionError (info : List Int)
deriving DecidableEq

/-- Byte order selected by the filename tag: `'<'` (little) or `'>'` (big)
in the source's `struct` format strings. -/
inductive Endian where
  | little
  | big
deriving DecidableEq

/-- Little-endian value of a byte list (first byte is least significant). -/
def wordOfBytesLE : List Nat → Nat
  | [] => 0
  | b :: rest => b + 256 * wordOfBytesLE rest

/-- Value of a byte list under the given byte order, as `struct.unpack`
computes it for one fixed-width field. -/
def wordOfBytes (e : Endian) (b : List Nat) : Nat :=
  match e with
  | .little => wordOfBytesLE b
  | .big => wordOfBytesLE b.reverse

/-- The `w` little-endian bytes of a value, as `struct.pack` emits them. -/
def bytesOfWordLE : Nat → Nat → List Nat
  | 0, _ => []
  | w + 1, v => v % 256 :: bytesOfWordLE w (v / 256)

/-- The `w` bytes of a value under the given byte order. -/
def bytesOfWord (e : Endian) (w v : Nat) : List Nat :=
  match e with
  | .little => bytesOfWordLE w v
  | .big => (bytesOfWordLE w v).reverse

/-- Signed interpretation of a 32-bit word, as `struct.unpack` format
`'i'` yields it. -/
def toSigned (v : Nat) : Int :=
  if v < 2 ^ 31 then (v : Int) else (v : Int) - 2 ^ 32

/-- The 32-bit word packing an `Int`, inverse of `toSigned` on
`[-2^31, 2^31)`. -/
def ofSigned (i : Int) : Nat :=
  (i % 2 ^ 32).toNat

/-- Split a list into `n` consecutive chunks of `k` elements (the
`numpy.reshape((n, k))` step of the reader). -/
def chunkListN (n k : Nat) (l : List α) : List (List α) :=
  match n with
  | 0 => []
  | n + 1 => l.take k :: chunkListN n k (l.drop k)

/-- Ascending value sort of an integer list: `list.sort()` /
`ndarray.sort()` on integers (for a list of plain integers the sorted
result is unique, so which sorting algorithm models it is immaterial). -/
def sortInts (l : List Int) : List Int :=
  l.insertionSort (· ≤ ·)

/-- Sorted distinct values: `numpy.unique` on a flat integer array. -/
def sortDedup (l : List Int) : List Int :=
  (sortInts l).dedup

/-- The in-memory mesh held by the `UGRID` instance: node coordinates as
raw float bit patterns (rows of 3), and the element / patch-id arrays as
rows of signed 32-bit values. -/
structure Mesh where
  nodes : List (List Nat)
  tris : List (List Int)
  quads : List (List Int)
  pids : List Int
  tets : List (List Int)
  penta5s : List (List Int)
  penta6s : List (List Int)
  hexas : List (List Int)
deriving DecidableEq

/-- Tests whether `pat` occurs at the start of `s` (`str.startswith`). -/
def charsStartWith : List Char → List Char → Bool
  | [], _ => true
  | _ :: _, [] => false
  | p :: ps, c :: cs => p = c && charsStartWith ps cs

/-- Tests whether `pat` occurs contiguously inside `s`: Python's
`pat in s` on strings. -/
def charsContain (pat : List Char) : List Char → Bool
  | [] => charsStartWith pat []
  | c :: cs => charsStartWith pat (c :: cs) || charsContain pat cs

/-- Split a character list on a separator character (`str.split(sep)`),
keeping empty segments, as Python does. -/
def splitChar (sep : Char) : List Char → List (List Char)
  | [] => [[]]
  | c :: cs =>
    let r := splitChar sep cs
    if c = sep then [] :: r
    else
      match r with
      | [] => [[c]]
      | h :: t => (c :: h) :: t

/-- Embeds `os.path.basename`: the part after the final `/`. -/
def pathBasename (s : List Char) : List Char :=
  (splitChar '/' s).getLastD []

/-- Shallow embedding of `determine_dytpe_nfloat_endian_from_ugrid_filename`
(ugrid_reader.py:989).  The source returns
`(ndarray_float, float_fmt, nfloat, endian)` where `endian` is the
`struct` byte-order character `'<'` or `'>'`; the character is modelled
by `Endian.little` / `Endian.big`.  Splitting the basename into other
than three dot-separated parts raises `ValueError` (tuple unpacking),
a wrong extension fails the `assert`, and a missing precision digit or
endianness marker raises `NotImplementedError`. -/
def determine_dytpe_nfloat_endian_from_ugrid_filename (ugrid_filename : String) :
    Except Err (String × String × Nat × Endian) :=
  match splitChar '.' (pathBasename ugrid_filename.toList) with
  | [_base, file_format, ext] =>
    if ext ≠ "ugrid".toList then .error (.assertionError []) else
    let fmtChars := file_format
    let widthPart : Except Err (String × String × Nat) :=
      if charsContain ['8'] fmtChars then .ok ("float64", "d", 8)
      else if charsContain ['4'] fmtChars then .ok ("float32", "f", 4)
      else .error .notImplementedError
    match widthPart with
    | .error e => .error e
    | .ok (ndarray_float, float_fmt, nfloat) =>
      if charsContain ['l', 'b'] fmtChars then
        .ok (ndarray_float, float_fmt, nfloat, .little)
      else if charsContain ['b'] fmtChars then
        .ok (ndarray_float, float_fmt, nfloat, .big)
      else .error .notImplementedError
  | _ => .error .valueError

/-- One fixed-size block read: `ugrid_file.read(k)` at offset `off`
followed by `struct.unpack`, which raises (`struct.error`) when the
stream holds fewer than `k` bytes there. -/
def readExact (s : List Nat) (off k : Nat) : Except Err (List Nat) :=
  if off + k ≤ s.length then .ok ((s.drop off).take k) else .error .structError

/-- Embeds `struct.unpack` of `count` signed 32-bit integers. -/
def decodeInts (e : Endian) (count : Nat) (bs : List Nat) : List Int :=
  (chunkListN count 4 bs).map (fun c => toSigned (wordOfBytes e c))

/-- Embeds `struct.unpack` of `count` floating-point values of byte width
`w`, kept as raw bit patterns. -/
def decodeWords (e : Endian) (count w : Nat) (bs : List Nat) : List Nat :=
  (chunkListN count w bs).map (wordOfBytes e)

/-- Embeds `struct.pack` of a run of signed 32-bit integers. -/
def encodeInts (e : Endian) (l : List Int) : List Nat :=
  l.flatMap (fun i => bytesOfWord e 4 (ofSigned i))

/-- Embeds `struct.pack` of a run of floating-point bit patterns of
width `w`. -/
def encodeWords (e : Endian) (w : Nat) (l : List Nat) : List Nat :=
  l.flatMap (bytesOfWord e w)

/-- Shallow embedding of `UGRID.read_ugrid` (ugrid_reader.py:49).  The
filename parsing step is factored out: the caller passes the byte order
and float width that `determine_dytpe_nfloat_endian_from_ugrid_filename`
produced (the source asserts `nfloat in [4, 8]` right after parsing).
Blocks are read in the fixed order header / nodes / tris / quads /
pids / tets / penta5s / penta6s / hexas; a negative header count makes
`numpy.zeros` raise `ValueError` before any block is read.  The returned
`Nat` is `self.n`, the total bytes consumed.  The source ends with
`assert self.n == ugrid_file.tell()`; both sides count exactly the bytes
requested by the reads above, so that assertion can never fail and adds
no check (in particular the file's total length is never consulted). -/
def read_ugrid (e : Endian) (nfloat : Nat) (s : List Nat) :
    Except Err (Mesh × Nat) :=
  if ¬(nfloat = 4 ∨ nfloat = 8) then .error (.assertionError []) else
  match readExact s 0 (7 * 4) with
  | .error er => .error er
  | .ok hdrB =>
    -- `struct.unpack(endian + '7i')` always yields exactly seven values
    -- here (`hdrB` has 28 bytes), so the tuple unpacking of the source
    -- is modelled by indexed access.
    let hdr := decodeInts e 7 hdrB
    let i1 := hdr.getD 0 0
    let i2 := hdr.getD 1 0
    let i3 := hdr.getD 2 0
    let i4 := hdr.getD 3 0
    let i5 := hdr.getD 4 0
    let i6 := hdr.getD 5 0
    let i7 := hdr.getD 6 0
    -- `numpy.zeros` of a negative size raises before any block read
    if i1 < 0 ∨ i2 < 0 ∨ i3 < 0 ∨ i4 < 0 ∨ i5 < 0 ∨ i6 < 0 ∨ i7 < 0 then
      .error .valueError
    else
      let nnodes := i1.toNat
      let ntris := i2.toNat
      let nquads := i3.toNat
      let ntets := i4.toNat
      let npenta5s := i5.toNat
      let npenta6s := i6.toNat
      let nhexas := i7.toNat
      let npids := nquads + ntris
      let szNodes := nnodes * 3 * nfloat
      let szTris := ntris * 3 * 4
      let szQuads := nquads * 4 * 4
      let szPids := npids * 4
      let szTets := ntets * 4 * 4
      let szP5 := npenta5s * 5 * 4
      let szP6 := npenta6s * 6 * 4
      let szHex := nhexas * 8 * 4
      match readExact s 28 szNodes with
        | .error er => .error er
        | .ok nodesB =>
        match readExact s (28 + szNodes) szTris with
        | .error er => .error er
        | .ok trisB =>
        match readExact s (28 + szNodes + szTris) szQuads with
        | .error er => .error er
        | .ok quadsB =>
        match readExact s (28 + szNodes + szTris + szQuads) szPids with
        | .error er => .error er
        | .ok pidsB =>
        match readExact s (28 + szNodes + szTris + szQuads + szPids) szTets with
        | .error er => .error er
        | .ok tetsB =>
        match readExact s (28 + szNodes + szTris + szQuads + szPids + szTets) szP5 with
        | .error er => .error er
        | .ok p5B =>
        match readExact s (28 + szNodes + szTris + szQuads + szPids + szTets + szP5) szP6 with
        | .error er => .error er
        | .ok p6B =>
        match readExact s (28 + szNodes + szTris + szQuads + szPids + szTets + szP5 + szP6) szHex with
        | .error er => .error er
        | .ok hexB =>
          let mesh : Mesh :=
            { nodes := chunkListN nnodes 3 (decodeWords e (nnodes * 3) nfloat nodesB)
              tris := chunkListN ntris 3 (decodeInts e (ntris * 3) trisB)
              quads := chunkListN nquads 4 (decodeInts e (nquads * 4) quadsB)
              pids := decodeInts e npids pidsB
              tets := chunkListN ntets 4 (decodeInts e (ntets * 4) tetsB)
              penta5s := chunkListN npenta5s 5 (decodeInts e (npenta5s * 5) p5B)
              penta6s := chunkListN npenta6s 6 (decodeInts e (npenta6s * 6) p6B)
              hexas := chunkListN nhexas 8 (decodeInts e (nhexas * 8) hexB) }
          .ok (mesh, 28 + szNodes + szTris + szQuads + szPids + szTets + szP5 + szP6 + szHex)

/-- Tests whether `i` fits the `struct` format `'i'` (signed 32-bit). -/
def int32ok (i : Int) : Bool :=
  decide (-(2 ^ 31) ≤ i) && decide (i < 2 ^ 31)

/-- The conditions under which every `struct.pack` call of
`UGRID.write_ugrid` succeeds: counts fit 32 bits, rows have the dtype
arities, node patterns fit the float width, integers fit `'i'`, and the
patch-id array has one entry per surface element (its `pack` format is
sized by `ntris + nquads`). -/
def packable (nfloat : Nat) (m : Mesh) : Bool :=
  decide (m.nodes.length < 2 ^ 31) && decide (m.tris.length < 2 ^ 31) &&
  decide (m.quads.length < 2 ^ 31) && decide (m.tets.length < 2 ^ 31) &&
  decide (m.penta5s.length < 2 ^ 31) && decide (m.penta6s.length < 2 ^ 31) &&
  decide (m.hexas.length < 2 ^ 31) &&
  m.nodes.all (fun r => r.length = 3 && r.all (fun v => decide (v < 2 ^ (8 * nfloat)))) &&
  m.tris.all (fun r => r.length = 3 && r.all int32ok) &&
  m.quads.all (fun r => r.length = 4 && r.all int32ok) &&
  decide (m.pids.length = m.tris.length + m.quads.length) && m.pids.all int32ok &&
  m.tets.all (fun r => r.length = 4 && r.all int32ok) &&
  m.penta5s.all (fun r => r.length = 5 && r.all int32ok) &&
  m.penta6s.all (fun r => r.length = 6 && r.all int32ok) &&
  m.hexas.all (fun r => r.length = 8 && r.all int32ok)

/-- Shallow embedding of `UGRID.write_ugrid` (ugrid_reader.py:374).  The
two `assert` statements (`nshells > 0`, `nsolids > 0`) run before the
output file is opened, so a rejected mesh produces no bytes at all.  The
source guards the triangle/quad/solid blocks with `if count:`, but a
`struct.pack` of zero items emits nothing, so the unconditional
concatenation below is byte-identical.  The value is the complete file
content; the trailing `self.check_hanging_nodes()` call of the source
runs after the file is closed and cannot change it. -/
def write_ugrid (e : Endian) (nfloat : Nat) (m : Mesh) :
    Except Err (List Nat) :=
  let nshells := m.tris.length + m.quads.length
  let nsolids := m.tets.length + m.penta5s.length + m.penta6s.length + m.hexas.length
  if nshells = 0 then .error (.assertionError []) else
  if nsolids = 0 then .error (.assertionError []) else
  if packable nfloat m then
    .ok (encodeInts e ([m.nodes.length, m.tris.length, m.quads.length,
            m.tets.length, m.penta5s.length, m.penta6s.length,
            m.hexas.length].map Int.ofNat) ++
         encodeWords e nfloat m.nodes.flatten ++
         encodeInts e m.tris.flatten ++
         encodeInts e m.quads.flatten ++
         encodeInts e m.pids ++
         encodeInts e m.tets.flatten ++
         encodeInts e m.penta5s.flatten ++
         encodeInts e m.penta6s.flatten ++
         encodeInts e m.hexas.flatten)
  else .error .structError

/-- A 72-byte big-endian single-precision UGRID stream: 1 node, 1
triangle, 0 quads, 1 tetrahedron, no other elements. -/
def sampleStream : List Nat :=
  [0,0,0,1, 0,0,0,1, 0,0,0,0, 0,0,0,1, 0,0,0,0, 0,0,0,0, 0,0,0,0] ++
  [0,0,0,0, 0,0,0,0, 0,0,0,0] ++
  [0,0,0,1, 0,0,0,2, 0,0,0,3] ++
  [0,0,0,7] ++
  [0,0,0,1, 0,0,0,2, 0,0,0,3, 0,0,0,4]

/-- The mesh `read_ugrid` produces from `sampleStream`. -/
def sampleMesh : Mesh :=
  { nodes := [[0, 0, 0]]
    tris := [[1, 2, 3]]
    quads := []
    pids := [7]
    tets := [[1, 2, 3, 4]]
    penta5s := []
    penta6s := []
    hexas := [] }

/-- The per-kind distinct-node-id lists appended to `nids` by
`check_hanging_nodes` (ugrid_reader.py:324): one `unique(kind.flatten())`
entry per non-empty volume-element kind; triangles and quads are
commented out in the source. -/
def nidParts (m : Mesh) : List (List Int) :=
  (if m.tets.length ≠ 0 then [sortDedup m.tets.flatten] else []) ++
  (if m.penta5s.length ≠ 0 then [sortDedup m.penta5s.flatten] else []) ++
  (if m.penta6s.length ≠ 0 then [sortDedup m.penta6s.flatten] else []) ++
  (if m.hexas.length ≠ 0 then [sortDedup m.hexas.flatten] else [])

/-- The distinct node ids referenced by volume elements: `nids[0]` when a
single kind contributed, otherwise `unique(hstack(nids))`. -/
def volumeNids (m : Mesh) : List Int :=
  if (nidParts m).length = 1 then (nidParts m).getD 0 []
  else sortDedup (nidParts m).flatten

/-- First row whose distinct-vertex count differs from the kind's
nominal arity: the element whose `assert len(unique(row)) == arity`
fails first. -/
def firstBadRow (arity : Nat) (rows : List (List Int)) : Option (List Int) :=
  rows.find? (fun r => (sortDedup r).length ≠ arity)

/-- Shallow embedding of `UGRID.check_hanging_nodes` (ugrid_reader.py:305).
An empty `nids` (no volume elements at all) raises `RuntimeError`
unconditionally, before `stop_on_diff` is consulted.  A node-coverage
mismatch computes the symmetric difference and raises only when
`stop_on_diff` is true.  The per-element `assert` loops then run in
source order: triangles, quads (whose assert is commented out -- a
degenerate quad is only printed), tets, pyramids (`penta5s`), pentas
(`penta6s`), hexas.  The returned value is `diff`. -/
def check_hanging_nodes (m : Mesh) (stop_on_diff : Bool := true) :
    Except Err (List Int) :=
  let nnodes := m.nodes.length
  if (nidParts m).length = 0 then .error .runtimeError else
  let nids := volumeNids m
  let diffRes : Except Err (List Int) :=
    if nnodes ≠ nids.length then
      let expected : List Int := (List.range nnodes).map (fun i => (i : Int) + 1)
      let d1 := expected.filter (fun x => decide (¬ x ∈ nids))
      let d2 := nids.filter (fun x => decide (¬ x ∈ expected))
      let diff := sortDedup (d1 ++ d2)
      if stop_on_diff then .error .runtimeError else .ok diff
    else .ok []
  match diffRes with
  | .error er => .error er
  | .ok diff =>
    match firstBadRow 3 m.tris with
    | some t => .error (.assertionError t)
    | none =>
    -- the quad check of the source only prints, it cannot raise
    match firstBadRow 4 m.tets with
    | some t => .error (.assertionError t)
    | none =>
    match firstBadRow 5 m.penta5s with
    | some t => .error (.assertionError t)
    | none =>
    match firstBadRow 6 m.penta6s with
    | some t => .error (.assertionError t)
    | none =>
    match firstBadRow 8 m.hexas with
    | some t => .error (.assertionError t)
    | none => .ok diff

/-- Mesh with a degenerate quad (repeated vertex), a sound tetrahedron
and exact node coverage. -/
def degenerateQuadMesh : Mesh :=
  { nodes := [[0, 0, 0], [0, 0, 0], [0, 0, 0], [0, 0, 0]]
    tris := []
    quads := [[1, 2, 3, 3]]
    pids := [1]
    tets := [[1, 2, 3, 4]]
    penta5s := []
    penta6s := []
    hexas := [] }

/-- In numpy, `ndarray.sort()` sorts in place and returns `None` -- so the
source's rebinding `tris = tris.sort()` (ugrid_reader.py:685) leaves
`tris` bound to `None`, modelled by `none` here. -/
def inPlaceSortResult (_l : List (List Int)) : Option (List (List Int)) :=
  none

/-- Shallow embedding of `UGRID.skin_solids` (ugrid_reader.py:609).  The
preallocated face arrays are filled block-wise from the element arrays
(the `penta6s` block reads from `self.penta5s`, the aliasing flagged in
the spec's design notes; with mismatched shapes numpy raises a broadcast
`ValueError` there, which is not modelled because it only aborts the
call even earlier).  After the fills, `tris = tris.sort()` rebinds
`tris` to `None`, the following `tris = tris.sort()` raises
`AttributeError` on `None`, and even the remaining code ends in an
unconditional `raise NotImplementedError()` before the `return`. -/
def skin_solids (m : Mesh) :
    Except Err (List (List Int) × List (List Int)) :=
  let ntets := m.tets.length
  let nquads := m.hexas.length * 6 + m.penta5s.length + 3 * m.penta6s.length
  let ntris := m.penta5s.length * 4 + m.penta6s.length * 2 + ntets * 4
  let tris : List (List Int) :=
    (m.tets.map (fun el => [el.getD 0 0, el.getD 1 0, el.getD 2 0])) ++
    (m.tets.map (fun el => [el.getD 0 0, el.getD 1 0, el.getD 3 0])) ++
    (m.tets.map (fun el => [el.getD 1 0, el.getD 2 0, el.getD 3 0])) ++
    (m.tets.map (fun el => [el.getD 0 0, el.getD 2 0, el.getD 3 0])) ++
    (m.penta5s.map (fun el => [el.getD 0 0, el.getD 1 0, el.getD 4 0])) ++
    (m.penta5s.map (fun el => [el.getD 1 0, el.getD 2 0, el.getD 4 0])) ++
    (m.penta5s.map (fun el => [el.getD 2 0, el.getD 3 0, el.getD 4 0])) ++
    (m.penta5s.map (fun el => [el.getD 3 0, el.getD 0 0, el.getD 4 0])) ++
    (m.penta5s.map (fun el => [el.getD 1 0, el.getD 4 0, el.getD 5 0, el.getD 3 0])) ++
    (m.penta5s.map (fun el => [el.getD 0 0, el.getD 1 0, el.getD 4 0, el.getD 3 0])) ++
    (m.penta5s.map (fun el => [el.getD 5 0, el.getD 3 0, el.getD 0 0, el.getD 2 0]))
  let quads : List (List Int) :=
    (m.hexas.map (fun el => [el.getD 0 0, el.getD 1 0, el.getD 2 0, el.getD 3 0])) ++
    (m.hexas.map (fun el => [el.getD 4 0, el.getD 5 0, el.getD 6 0, el.getD 7 0])) ++
    (m.hexas.map (fun el => [el.getD 0 0, el.getD 3 0, el.getD 7 0, el.getD 4 0])) ++
    (m.hexas.map (fun el => [el.getD 1 0, el.getD 2 0, el.getD 6 0, el.getD 5 0])) ++
    (m.hexas.map (fun el => [el.getD 0 0, el.getD 1 0, el.getD 5 0, el.getD 4 0])) ++
    (m.hexas.map (fun el => [el.getD 3 0, el.getD 2 0, el.getD 6 0, el.getD 7 0])) ++
    (m.penta5s.map (fun el => [el.getD 0 0, el.getD 1 0, el.getD 2 0, el.getD 3 0])) ++
    (m.penta5s.map (fun el => [el.getD 0 0, el.getD 1 0, el.getD 2 0])) ++
    (m.penta5s.map (fun el => [el.getD 3 0, el.getD 4 0, el.getD 5 0]))
  match inPlaceSortResult tris with
  | none =>
    -- second `tris.sort()` on the rebound `None` (ugrid_reader.py:687)
    .error .attributeError
  | some _ =>
    -- unreachable; and the source still raises `NotImplementedError`
    -- (ugrid_reader.py:702) before its `return tris, quads`
    .error .notImplementedError

/-- Embeds `self.tets - 1` etc.: the reader subtracts one from every node id
before face enumeration (0-based ids). -/
def minusOne (rows : List (List Int)) : List (List Int) :=
  rows.map (List.map (fun x => x - 1))

/-- Tetrahedron tri-face template of `_write_faces`
(ugrid_reader.py:742): `[n3,n2,n1], [n1,n2,n4], [n4,n3,n1], [n2,n3,n4]`. -/
def tetTriFaces (el : List Int) : List (List Int) :=
  let n1 := el.getD 0 0
  let n2 := el.getD 1 0
  let n3 := el.getD 2 0
  let n4 := el.getD 3 0
  [[n3, n2, n1], [n1, n2, n4], [n4, n3, n1], [n2, n3, n4]]

/-- Hexahedron quad-face template of `_write_faces`
(ugrid_reader.py:770). -/
def hexaQuadFaces (el : List Int) : List (List Int) :=
  let n1 := el.getD 0 0
  let n2 := el.getD 1 0
  let n3 := el.getD 2 0
  let n4 := el.getD 3 0
  let n5 := el.getD 4 0
  let n6 := el.getD 5 0
  let n7 := el.getD 6 0
  let n8 := el.getD 7 0
  [[n1, n2, n3, n4], [n2, n6, n7, n3], [n6, n5, n8, n7],
   [n5, n1, n4, n8], [n4, n3, n7, n8], [n5, n6, n2, n1]]

/-- Pyramid (`penta5`) tri-face template of `_write_faces`
(ugrid_reader.py:807). -/
def penta5TriFaces (el : List Int) : List (List Int) :=
  let n1 := el.getD 0 0
  let n2 := el.getD 1 0
  let n3 := el.getD 2 0
  let n4 := el.getD 3 0
  let n5 := el.getD 4 0
  [[n2, n3, n5], [n1, n2, n5], [n4, n1, n5], [n5, n3, n4]]

/-- Pyramid quad-face template (its base) of `_write_faces`
(ugrid_reader.py:811). -/
def penta5QuadFaces (el : List Int) : List (List Int) :=
  let n1 := el.getD 0 0
  let n2 := el.getD 1 0
  let n3 := el.getD 2 0
  let n4 := el.getD 3 0
  [[n4, n3, n2, n1]]

/-- Prism (`penta6`) tri-face template of `_write_faces`
(ugrid_reader.py:842). -/
def penta6TriFaces (el : List Int) : List (List Int) :=
  let n1 := el.getD 0 0
  let n2 := el.getD 1 0
  let n3 := el.getD 2 0
  let n4 := el.getD 3 0
  let n5 := el.getD 4 0
  let n6 := el.getD 5 0
  [[n1, n2, n3], [n5, n4, n6]]

/-- Prism quad-face template of `_write_faces` (ugrid_reader.py:844). -/
def penta6QuadFaces (el : List Int) : List (List Int) :=
  let n1 := el.getD 0 0
  let n2 := el.getD 1 0
  let n3 := el.getD 2 0
  let n4 := el.getD 3 0
  let n5 := el.getD 4 0
  let n6 := el.getD 5 0
  [[n2, n5, n6, n3], [n4, n1, n3, n6], [n4, n5, n2, n1]]

/-- The dense unsorted tri-face rows of `_write_faces`, in write order:
four rows per tetrahedron, then four per pyramid, then two per prism
(hexahedra contribute no tri faces). -/
def triFacesOf (m : Mesh) : List (List Int) :=
  (minusOne m.tets).flatMap tetTriFaces ++
  (minusOne m.penta5s).flatMap penta5TriFaces ++
  (minusOne m.penta6s).flatMap penta6TriFaces

/-- The dense unsorted quad-face rows of `_write_faces`, in write order. -/
def quadFacesOf (m : Mesh) : List (List Int) :=
  (minusOne m.hexas).flatMap hexaQuadFaces ++
  (minusOne m.penta5s).flatMap penta5QuadFaces ++
  (minusOne m.penta6s).flatMap penta6QuadFaces

/-- The `defaultdict(list)` mapping canonical (sorted) face keys to the
contributing element ids, as an insertion-ordered association list
(CPython 2 iterates a dict in an unspecified but fixed order; insertion
order is the deterministic model used here). -/
abbrev FaceMap : Type := List (List Int × List Nat)

/-- Embeds `face_to_eids[key].append(eid)`. -/
def addEntry (k : List Int) (eid : Nat) : FaceMap → FaceMap
  | [] => [(k, [eid])]
  | (k2, es) :: rest =>
    if k2 = k then (k2, es ++ [eid]) :: rest
    else (k2, es) :: addEntry k eid rest

/-- Register all faces of one element under their sorted keys. -/
def addFacesOf (faceFn : List Int → List (List Int)) (eid : Nat)
    (el : List Int) (mp : FaceMap) : FaceMap :=
  ((faceFn el).map sortInts).foldl (fun mp2 k => addEntry k eid mp2) mp

/-- Process one element kind, advancing the global element id. -/
def addKind (faceFn : List Int → List (List Int)) :
    Nat → List (List Int) → FaceMap → FaceMap
  | _, [], mp => mp
  | eid, el :: rest, mp =>
    addKind faceFn (eid + 1) rest (addFacesOf faceFn eid el mp)

/-- The map `tri_face_to_eids` after the four element-kind loops of
`_write_faces`: tets start at element id 1, hexahedra (no tri faces, but
they advance the id) at `ntets+1`, pyramids at `ntets+nhexas+1`, prisms
after those. -/
def triFaceToEids (m : Mesh) : FaceMap :=
  let t := m.tets.length
  let h := m.hexas.length
  let p5 := m.penta5s.length
  addKind penta6TriFaces (t + h + p5 + 1) (minusOne m.penta6s)
    (addKind penta5TriFaces (t + h + 1) (minusOne m.penta5s)
      (addKind tetTriFaces 1 (minusOne m.tets) []))

/-- The map `quad_face_to_eids` after the four element-kind loops. -/
def quadFaceToEids (m : Mesh) : FaceMap :=
  let t := m.tets.length
  let h := m.hexas.length
  let p5 := m.penta5s.length
  addKind penta6QuadFaces (t + h + p5 + 1) (minusOne m.penta6s)
    (addKind penta5QuadFaces (t + h + 1) (minusOne m.penta5s)
      (addKind hexaQuadFaces (t + 1) (minusOne m.hexas) []))

/-- The sorted keys of `min_eids` (`eid_keys` in the source; Python 2
list semantics, where `dict.keys()` is a sortable list).  Zero-count
kinds make the later insertions overwrite earlier ones, so the keys are
deduplicated. -/
def eidKeys (m : Mesh) : List Nat :=
  let t := m.tets.length
  let h := m.hexas.length
  let p5 := m.penta5s.length
  (([1, t + 1, t + h + 1, t + h + p5 + 1] : List Nat).insertionSort
    (· ≤ ·)).dedup

/-- Embeds `numpy.searchsorted(a, v)` with `side='left'` on a sorted array:
the
number of entries strictly below `v`. -/
def searchsortedLeft (a : List Nat) (v : Nat) : Nat :=
  a.countP (fun x => x < v)

/-- The `allclose` chain of `_write_faces` (ugrid_reader.py:933): find
which of the four sorted rows of element `e1` equals the canonical face.
Rows beyond the array (short slice) raise `IndexError`; no match raises
`RuntimeError`. -/
def matchRow4 (face : List Int) (rows : List (List Int)) : Except Err Nat :=
  match rows.get? 0 with
  | none => .error .indexError
  | some r0 =>
    if r0 = face then .ok 0 else
    match rows.get? 1 with
    | none => .error .indexError
    | some r1 =>
      if r1 = face then .ok 1 else
      match rows.get? 2 with
      | none => .error .indexError
      | some r2 =>
        if r2 = face then .ok 2 else
        match rows.get? 3 with
        | none => .error .indexError
        | some r3 =>
          if r3 = face then .ok 3 else .error .runtimeError

/-- Classification of one interior tri face (two contributors) by
`_write_faces` (ugrid_reader.py:916): `i1 = searchsorted(eid_keys, e1)`.
Only `i1 == 1` (the tetrahedron branch) assigns `owner`/`neighbor`:
owner is `e1` when `e1`'s stored unsorted row at the matched slot equals
the canonical sorted face, else `e2`.  `i1` of 2, 3 or 4 (hexa, pyramid,
prism) only sets slice markers and assigns nothing; any other value
raises through the `type_mapper[i1]` lookup (`KeyError`). -/
def classifyTriFace (m : Mesh) (face : List Int) (e1 e2 : Nat) :
    Except Err (Option (List Int × Nat × Nat)) :=
  let i1 := searchsortedLeft (eidKeys m) e1
  if i1 = 1 then
    let it1 := (e1 - 1) * 4
    let faces1_sort := (((triFacesOf m).map sortInts).drop it1).take 4
    let faces1_unsorted := ((triFacesOf m).drop it1).take 4
    match matchRow4 face faces1_sort with
    | .error er => .error er
    | .ok n1 =>
      match faces1_unsorted.get? n1 with
      | none => .error .indexError
      | some unsRow =>
        if unsRow = face then .ok (some (face, e1, e2))
        else .ok (some (face, e2, e1))
  else if i1 = 2 ∨ i1 = 3 ∨ i1 = 4 then .ok none
  else .error .keyError

/-- The loop over `tri_face_to_eids` (ugrid_reader.py:904): one
contributor is a boundary face and is skipped (`continue`); two
contributors are classified; any other count fails the
`e1, e2 = eids` unpacking with `ValueError`.  The value collects the
`(face, owner, neighbor)` assignments the loop makes (the quad map is
never iterated by the source). -/
def classifyEntries (m : Mesh) : FaceMap →
    Except Err (List (List Int × Nat × Nat))
  | [] => .ok []
  | (face, eids) :: rest =>
    match eids with
    | [_] => classifyEntries m rest
    | [e1, e2] =>
      match classifyTriFace m face e1 e2 with
      | .error er => .error er
      | .ok none => classifyEntries m rest
      | .ok (some a) =>
        match classifyEntries m rest with
        | .error er => .error er
        | .ok l => .ok (a :: l)
    | _ => .error .valueError

/-- Shallow embedding of `UGRID._write_faces` (ugrid_reader.py:705): the
`assert nfaces > 0` guard, then the classification loop over the
tri-face map.  The OpenFOAM file receives only two parenthesis lines;
no face data is ever written, so the observable outcome is the
error/assignment behaviour collected here. -/
def write_faces (m : Mesh) :
    Except Err (List (List Int × Nat × Nat)) :=
  let nquad_faces := m.hexas.length * 6 + m.penta5s.length +
    m.penta6s.length * 3
  let ntri_faces := m.tets.length * 4 + m.penta5s.length * 4 +
    m.penta6s.length * 2
  if ntri_faces + nquad_faces = 0 then .error (.assertionError []) else
  classifyEntries m (triFaceToEids m)

def cexOwnerMesh : Mesh :=
  { nodes := [], tris := [], quads := [], pids := [],
    tets := [[7, 8, 9, 10], [1, 2, 3, 4], [1, 3, 2, 5]],
    penta5s := [], penta6s := [], hexas := [] }

def hex3Mesh : Mesh :=
  { nodes := [], tris := [], quads := [], pids := [], tets := [],
    penta5s := [], penta6s := [],
    hexas := [[1, 2, 3, 4, 5, 6, 7, 8], [1, 2, 3, 4, 9, 10, 11, 12],
      [1, 2, 3, 4, 13, 14, 15, 16]] }

def tet3SharedMesh : Mesh :=
  { nodes := [], tris := [], quads := [], pids := [],
    tets := [[1, 2, 3, 4], [1, 2, 3, 5], [1, 2, 3, 6]],
    penta5s := [], penta6s := [], hexas := [] }

/-- Embeds `numpy.where(iboundary == pids)[0]`: the indices at which the (by
then sorted) patch-id array equals `u`. -/
def wherePositions (S : List Int) (u : Int) : List Nat :=
  (List.range S.length).filter (fun i => S.getD i 0 = u)

/-- The per-patch loop of `_write_boundary` (ugrid_reader.py:588): look
the patch id up in the tag data (`KeyError` when absent), take the
index set of the sorted pids, compute `nfaces = i.max() - i.min() + 1`
and `startface = i.min()` (`ValueError` on an empty index array), check
`assert len(i) == nfaces`, and emit `(name, nFaces, startFace)`. -/
def boundaryLoop (pids : List Int) (tag_data : Int → Option String) :
    List Int → Except Err (List (String × Nat × Nat))
  | [] => .ok []
  | u :: rest =>
    match tag_data u with
    | none => .error .keyError
    | some name =>
      let i := wherePositions pids u
      match i.max?, i.min? with
      | some imax, some imin =>
        if i.length = imax - imin + 1 then
          match boundaryLoop pids tag_data rest with
          | .error er => .error er
          | .ok l => .ok ((name, imax - imin + 1, imin) :: l)
        else .error (.assertionError [])
      | _, _ => .error .valueError

/-- Shallow embedding of `UGRID._write_boundary` (ugrid_reader.py:568).
`uboundaries = unique(self.pids)` is computed, `argsort(self.pids)` is
stored on the instance as `self.isort` (unused by this routine), and
`self.pids.sort()` sorts the patch-id array in place -- the
surface-element arrays `tris`/`quads` are left untouched, which the
returned mesh records through the structure update. -/
def write_boundary (m : Mesh) (tag_data : Int → Option String) :
    Except Err (Mesh × List (String × Nat × Nat)) :=
  let uboundaries := sortDedup m.pids
  let pids := sortInts m.pids
  match boundaryLoop pids tag_data uboundaries with
  | .error er => .error er
  | .ok patches => .ok ({ m with pids := pids }, patches)

def unsortedPidsMesh : Mesh :=
  { nodes := [], tris := [[1, 2, 3], [4, 5, 6]], quads := [],
    pids := [2, 1], tets := [[1, 2, 3, 4]],
    penta5s := [], penta6s := [], hexas := [] }

/-- C6: the filename-tag parser maps `x.b8.ugrid` to 64-bit floats with
big byte order, `x.lb4.ugrid` to 32-bit floats with little byte order,
and rejects `x.b.ugrid` (no precision digit) with an error.  The
embedding is a pure function, matching the source's freedom from side
effects. -/
theorem filename_descriptor_scenarios :
    determine_dytpe_nfloat_endian_from_ugrid_filename "x.b8.ugrid" =
      .ok ("float64", "d", 8, Endian.big) ∧
    determine_dytpe_nfloat_endian_from_ugrid_filename "x.lb4.ugrid" =
      .ok ("float32", "f", 4, Endian.little) ∧
    determine_dytpe_nfloat_endian_from_ugrid_filename "x.b.ugrid" =
      .error Err.notImplementedError := by
  refine ⟨?_, ?_, ?_⟩ <;> rfl

theorem length_chunkListN (n k : Nat) (l : List α) :
    (chunkListN n k l).length = n := by
  induction n generalizing l with
  | zero => rfl
  | succ n ih => simp [chunkListN, ih]

theorem chunkListN_props (n k : Nat) (l : List α) (h : l.length = n * k) :
    ∀ c ∈ chunkListN n k l, c.length = k ∧ ∀ x ∈ c, x ∈ l := by
  induction n generalizing l with
  | zero => intro c hc; simp [chunkListN] at hc
  | succ n ih =>
    intro c hc
    have hk : k ≤ l.length := by
      rw [h, Nat.succ_mul]; exact Nat.le_add_left _ _
    have hdrop : (l.drop k).length = n * k := by
      rw [List.length_drop, h, Nat.succ_mul, Nat.add_sub_cancel]
    rw [chunkListN] at hc
    rcases List.mem_cons.mp hc with hc | hc
    · subst hc
      refine ⟨List.length_take_of_le hk, fun x hx => List.mem_of_mem_take hx⟩
    · obtain ⟨hlen, hmem⟩ := ih (l.drop k) hdrop c hc
      exact ⟨hlen, fun x hx => List.mem_of_mem_drop (hmem x hx)⟩

theorem flatten_chunkListN (n k : Nat) (l : List α) (h : l.length = n * k) :
    (chunkListN n k l).flatten = l := by
  induction n generalizing l with
  | zero =>
    have : l = [] := List.length_eq_zero.mp (by simpa using h)
    simp [this, chunkListN]
  | succ n ih =>
    have hdrop : (l.drop k).length = n * k := by
      rw [List.length_drop, h, Nat.succ_mul, Nat.add_sub_cancel]
    simp [chunkListN, ih (l.drop k) hdrop]

theorem wordOfBytesLE_lt (b : List Nat) (h : ∀ x ∈ b, x < 256) :
    wordOfBytesLE b < 256 ^ b.length := by
  induction b with
  | nil => simp [wordOfBytesLE]
  | cons x rest ih =>
    have hx : x < 256 := h x (by simp)
    have hr := ih (fun y hy => h y (by simp [hy]))
    have : x + 256 * wordOfBytesLE rest + 1 ≤ 256 * (wordOfBytesLE rest + 1) := by
      omega
    calc wordOfBytesLE (x :: rest) = x + 256 * wordOfBytesLE rest := rfl
      _ < 256 * (wordOfBytesLE rest + 1) := by omega
      _ ≤ 256 * 256 ^ rest.length := by
          have : wordOfBytesLE rest + 1 ≤ 256 ^ rest.length := hr
          exact Nat.mul_le_mul_left _ this
      _ = 256 ^ (x :: rest).length := by
          simp [List.length_cons, pow_succ, Nat.mul_comm]

theorem bytesOfWordLE_wordOfBytesLE (b : List Nat) (h : ∀ x ∈ b, x < 256) :
    bytesOfWordLE b.length (wordOfBytesLE b) = b := by
  induction b with
  | nil => rfl
  | cons x rest ih =>
    have hx : x < 256 := h x (by simp)
    have h1 : (x + 256 * wordOfBytesLE rest) % 256 = x := by
      rw [Nat.add_mul_mod_self_left, Nat.mod_eq_of_lt hx]
    have h2 : (x + 256 * wordOfBytesLE rest) / 256 = wordOfBytesLE rest := by
      rw [Nat.add_mul_div_left _ _ (by norm_num : (0:Nat) < 256),
        Nat.div_eq_of_lt hx, Nat.zero_add]
    simp only [List.length_cons, wordOfBytesLE, bytesOfWordLE, h1, h2]
    rw [ih (fun y hy => h y (by simp [hy]))]

theorem length_bytesOfWordLE (w v : Nat) : (bytesOfWordLE w v).length = w := by
  induction w generalizing v with
  | zero => rfl
  | succ w ih => simp [bytesOfWordLE, ih]

theorem wordOfBytes_lt (e : Endian) (b : List Nat) (h : ∀ x ∈ b, x < 256) :
    wordOfBytes e b < 256 ^ b.length := by
  cases e with
  | little => exact wordOfBytesLE_lt b h
  | big =>
    have := wordOfBytesLE_lt b.reverse (fun x hx => h x (List.mem_reverse.mp hx))
    simpa [wordOfBytes] using this

theorem bytesOfWord_wordOfBytes (e : Endian) (b : List Nat)
    (h : ∀ x ∈ b, x < 256) :
    bytesOfWord e b.length (wordOfBytes e b) = b := by
  cases e with
  | little => exact bytesOfWordLE_wordOfBytesLE b h
  | big =>
    have hrev := bytesOfWordLE_wordOfBytesLE b.reverse
      (fun x hx => h x (List.mem_reverse.mp hx))
    simp only [List.length_reverse] at hrev
    simp only [bytesOfWord, wordOfBytes, hrev, List.reverse_reverse]

theorem ofSigned_toSigned (v : Nat) (h : v < 2 ^ 32) :
    ofSigned (toSigned v) = v := by
  unfold ofSigned toSigned
  split
  · rw [Int.emod_eq_of_lt (by positivity) (by exact_mod_cast by omega)]
    exact Int.toNat_natCast v
  · have h31 : ¬ (v < 2 ^ 31) := by assumption
    have : ((v : Int) - 2 ^ 32) % 2 ^ 32 = (v : Int) % 2 ^ 32 := by
      omega
    rw [this, Int.emod_eq_of_lt (by positivity) (by exact_mod_cast h)]
    exact Int.toNat_natCast v

theorem int32ok_toSigned (v : Nat) (hv : v < 2 ^ 32) :
    int32ok (toSigned v) = true := by
  unfold int32ok toSigned
  split <;> simp <;> omega

theorem toSigned_lt_two_pow_31 (v : Nat) (hv : v < 2 ^ 32)
    (h : ¬ toSigned v < 0) : v < 2 ^ 31 ∧ toSigned v = (v : Int) := by
  unfold toSigned at *
  split at h
  · rw [if_pos (by assumption : v < 2 ^ 31)]
    exact ⟨by assumption, rfl⟩
  · exfalso; omega

theorem length_decodeInts (e : Endian) (k : Nat) (bs : List Nat) :
    (decodeInts e k bs).length = k := by
  simp [decodeInts, length_chunkListN]

theorem length_decodeWords (e : Endian) (k w : Nat) (bs : List Nat) :
    (decodeWords e k w bs).length = k := by
  simp [decodeWords, length_chunkListN]

theorem encodeInts_decodeInts (e : Endian) (k : Nat) (bs : List Nat)
    (hlen : bs.length = k * 4) (hb : ∀ x ∈ bs, x < 256) :
    encodeInts e (decodeInts e k bs) = bs := by
  induction k generalizing bs with
  | zero =>
    have : bs = [] := List.length_eq_zero.mp (by simpa using hlen)
    simp [this, encodeInts, decodeInts, chunkListN]
  | succ k ih =>
    have h4 : 4 ≤ bs.length := by rw [hlen, Nat.succ_mul]; omega
    have htake : (bs.take 4).length = 4 := List.length_take_of_le h4
    have hbt : ∀ x ∈ bs.take 4, x < 256 :=
      fun x hx => hb x (List.mem_of_mem_take hx)
    have hword : wordOfBytes e (bs.take 4) < 2 ^ 32 := by
      have := wordOfBytes_lt e (bs.take 4) hbt
      rw [htake] at this
      exact lt_of_lt_of_eq this (by norm_num)
    have hhead : bytesOfWord e 4 (ofSigned (toSigned (wordOfBytes e (bs.take 4)))) =
        bs.take 4 := by
      have hbw := bytesOfWord_wordOfBytes e (bs.take 4) hbt
      rw [htake] at hbw
      rw [ofSigned_toSigned _ hword, hbw]
    have hdlen : (bs.drop 4).length = k * 4 := by
      rw [List.length_drop, hlen, Nat.succ_mul]; omega
    have hdb : ∀ x ∈ bs.drop 4, x < 256 :=
      fun x hx => hb x (List.mem_of_mem_drop hx)
    calc encodeInts e (decodeInts e (k + 1) bs)
        = bytesOfWord e 4 (ofSigned (toSigned (wordOfBytes e (bs.take 4)))) ++
            encodeInts e (decodeInts e k (bs.drop 4)) := by
          simp [decodeInts, chunkListN, encodeInts]
      _ = bs.take 4 ++ bs.drop 4 := by rw [hhead, ih (bs.drop 4) hdlen hdb]
      _ = bs := List.take_append_drop 4 bs

theorem encodeWords_decodeWords (e : Endian) (k w : Nat) (bs : List Nat)
    (hlen : bs.length = k * w) (hb : ∀ x ∈ bs, x < 256) :
    encodeWords e w (decodeWords e k w bs) = bs := by
  induction k generalizing bs with
  | zero =>
    have : bs = [] := List.length_eq_zero.mp (by simpa using hlen)
    simp [this, encodeWords, decodeWords, chunkListN]
  | succ k ih =>
    have hw : w ≤ bs.length := by rw [hlen, Nat.succ_mul]; omega
    have htake : (bs.take w).length = w := List.length_take_of_le hw
    have hbt : ∀ x ∈ bs.take w, x < 256 :=
      fun x hx => hb x (List.mem_of_mem_take hx)
    have hhead : bytesOfWord e w (wordOfBytes e (bs.take w)) = bs.take w := by
      have hbw := bytesOfWord_wordOfBytes e (bs.take w) hbt
      rw [htake] at hbw
      exact hbw
    have hdlen : (bs.drop w).length = k * w := by
      rw [List.length_drop, hlen, Nat.succ_mul]; omega
    have hdb : ∀ x ∈ bs.drop w, x < 256 :=
      fun x hx => hb x (List.mem_of_mem_drop hx)
    calc encodeWords e w (decodeWords e (k + 1) w bs)
        = bytesOfWord e w (wordOfBytes e (bs.take w)) ++
            encodeWords e w (decodeWords e k w (bs.drop w)) := by
          simp [decodeWords, chunkListN, encodeWords]
      _ = bs.take w ++ bs.drop w := by rw [hhead, ih (bs.drop w) hdlen hdb]
      _ = bs := List.take_append_drop w bs

theorem readExact_ok (s : List Nat) (off k : Nat) (b : List Nat)
    (h : readExact s off k = .ok b) :
    off + k ≤ s.length ∧ b = (s.drop off).take k ∧ b.length = k ∧
      ∀ x ∈ b, x ∈ s := by
  unfold readExact at h
  split at h
  · injection h with hb
    subst hb
    refine ⟨by assumption, rfl, ?_, ?_⟩
    · rw [List.length_take, List.length_drop]; omega
    · intro x hx
      exact List.mem_of_mem_drop (List.mem_of_mem_take hx)
  · exact absurd h (by simp)

theorem drop_split_at (s : List Nat) (off k : Nat) (h : off + k ≤ s.length) :
    s.drop off = (s.drop off).take k ++ s.drop (off + k) := by
  have : (s.drop off).drop k = s.drop (off + k) := by
    rw [List.drop_drop, Nat.add_comm]
  rw [← this, List.take_append_drop]

theorem stream_decomp (s : List Nat) (off k : Nat) (b : List Nat)
    (h : readExact s off k = .ok b) :
    s.drop off = b ++ s.drop (off + k) := by
  obtain ⟨hle, hb, _, _⟩ := readExact_ok s off k b h
  rw [hb]
  exact drop_split_at s off k hle

theorem getD_mem_of_lt (l : List α) (j : Nat) (d : α) (h : j < l.length) :
    l.getD j d ∈ l := by
  rw [List.getD_eq_getElem l d h]
  exact l.getElem_mem h

theorem list_eq_seven (l : List α) (d : α) (h : l.length = 7) :
    l = [l.getD 0 d, l.getD 1 d, l.getD 2 d, l.getD 3 d, l.getD 4 d,
      l.getD 5 d, l.getD 6 d] := by
  obtain _ | ⟨x1, _ | ⟨x2, _ | ⟨x3, _ | ⟨x4, rest⟩⟩⟩⟩ := l <;> try simp at h
  obtain _ | ⟨x5, _ | ⟨x6, _ | ⟨x7, _ | ⟨x8, tail2⟩⟩⟩⟩ := rest <;>
    try simp at h
  rfl

theorem decodeInts_entry (e : Endian) (k : Nat) (bs : List Nat)
    (hlen : bs.length = k * 4) (hb : ∀ x ∈ bs, x < 256) :
    ∀ x ∈ decodeInts e k bs, ∃ v : Nat, v < 2 ^ 32 ∧ x = toSigned v := by
  intro x hx
  obtain ⟨c, hc, hxc⟩ := List.mem_map.mp hx
  obtain ⟨hclen, hcmem⟩ := chunkListN_props k 4 bs hlen c hc
  refine ⟨wordOfBytes e c, ?_, hxc.symm⟩
  have := wordOfBytes_lt e c (fun y hy => hb y (hcmem y hy))
  rw [hclen] at this
  exact lt_of_lt_of_eq this (by norm_num)

theorem decodeWords_entry (e : Endian) (k w : Nat) (bs : List Nat)
    (hlen : bs.length = k * w) (hb : ∀ x ∈ bs, x < 256) :
    ∀ x ∈ decodeWords e k w bs, x < 2 ^ (8 * w) := by
  intro x hx
  obtain ⟨c, hc, hxc⟩ := List.mem_map.mp hx
  obtain ⟨hclen, hcmem⟩ := chunkListN_props k w bs hlen c hc
  have hlt := wordOfBytes_lt e c (fun y hy => hb y (hcmem y hy))
  rw [hclen] at hlt
  have h256 : (256 : Nat) ^ w = 2 ^ (8 * w) := by
    rw [show (256 : Nat) = 2 ^ 8 by norm_num, ← pow_mul]
  rw [← hxc, ← h256]
  exact hlt

theorem chunk_rows_int32ok (e : Endian) (nrows arity : Nat) (bs : List Nat)
    (hlen : bs.length = nrows * arity * 4) (hb : ∀ x ∈ bs, x < 256) :
    ∀ r ∈ chunkListN nrows arity (decodeInts e (nrows * arity) bs),
      r.length = arity ∧ ∀ x ∈ r, int32ok x = true := by
  intro r hr
  have hl : (decodeInts e (nrows * arity) bs).length = nrows * arity :=
    length_decodeInts e (nrows * arity) bs
  obtain ⟨hrlen, hrmem⟩ := chunkListN_props nrows arity _ hl r hr
  refine ⟨hrlen, fun x hx => ?_⟩
  obtain ⟨v, hv, hveq⟩ := decodeInts_entry e (nrows * arity) bs hlen hb x
    (hrmem x hx)
  rw [hveq]
  exact int32ok_toSigned v hv

theorem chunk_rows_nodes (e : Endian) (nn w : Nat) (bs : List Nat)
    (hlen : bs.length = nn * 3 * w) (hb : ∀ x ∈ bs, x < 256) :
    ∀ r ∈ chunkListN nn 3 (decodeWords e (nn * 3) w bs),
      r.length = 3 ∧ ∀ x ∈ r, x < 2 ^ (8 * w) := by
  intro r hr
  have hl : (decodeWords e (nn * 3) w bs).length = nn * 3 :=
    length_decodeWords e (nn * 3) w bs
  obtain ⟨hrlen, hrmem⟩ := chunkListN_props nn 3 _ hl r hr
  exact ⟨hrlen, fun x hx => decodeWords_entry e (nn * 3) w bs hlen hb x
    (hrmem x hx)⟩

/-- C1: round trip of the binary codec.  For a well-formed stream --
every byte below 256, `read_ugrid` succeeding with its byte count
`self.n` equal to the stream length (the format's blocks account for
the whole file), and the decoded mesh having at least one surface and
one volume element as §4.2 requires of the format -- re-encoding the
decoded mesh with the same byte order and float width reproduces the
stream byte for byte. -/
theorem read_write_roundtrip (e : Endian) (nfloat : Nat) (s : List Nat)

    (m : Mesh) (n : Nat)
    (hbytes : ∀ x ∈ s, x < 256)
    (hread : read_ugrid e nfloat s = .ok (m, n))
    (hlen : n = s.length)
    (hshells : 0 < m.tris.length + m.quads.length)
    (hsolids : 0 < m.tets.length + m.penta5s.length +
      m.penta6s.length + m.hexas.length) :
    write_ugrid e nfloat m = .ok s := by
  unfold read_ugrid at hread
  split at hread
  · simp at hread
  split at hread
  · simp at hread
  rename_i hdrB hhdr
  dsimp only at hread
  split at hread
  · simp at hread
  rename_i hpos
  split at hread
  · simp at hread
  rename_i nodesB hBn
  split at hread
  · simp at hread
  rename_i trisB hBt
  split at hread
  · simp at hread
  rename_i quadsB hBq
  split at hread
  · simp at hread
  rename_i pidsB hBp
  split at hread
  · simp at hread
  rename_i tetsB hBtet
  split at hread
  · simp at hread
  rename_i p5B hB5
  split at hread
  · simp at hread
  rename_i p6B hB6
  split at hread
  · simp at hread
  rename_i hexB hBh
  simp only [Except.ok.injEq, Prod.mk.injEq] at hread
  obtain ⟨hm, hn⟩ := hread
  push_neg at hpos
  obtain ⟨hg1, hg2, hg3, hg4, hg5, hg6, hg7⟩ := hpos
  -- facts about the header block
  obtain ⟨hle0, heq0, hlen0, hmem0⟩ := readExact_ok _ _ _ _ hhdr
  have hhb : ∀ x ∈ hdrB, x < 256 := fun x hx => hbytes x (hmem0 x hx)
  have h7 : (decodeInts e 7 hdrB).length = 7 := length_decodeInts e 7 hdrB
  have hcnt : ∀ j, j < 7 →
      ¬ (decodeInts e 7 hdrB).getD j 0 < 0 →
      ((decodeInts e 7 hdrB).getD j 0).toNat < 2 ^ 31 ∧
        (((decodeInts e 7 hdrB).getD j 0).toNat : Int) =
          (decodeInts e 7 hdrB).getD j 0 := by
    intro j hj hneg
    have hmem : (decodeInts e 7 hdrB).getD j 0 ∈ decodeInts e 7 hdrB :=
      getD_mem_of_lt _ _ _ (by rw [h7]; exact hj)
    obtain ⟨v, hv, hveq⟩ := decodeInts_entry e 7 hdrB (by rw [hlen0]) hhb _ hmem
    rw [hveq] at hneg ⊢
    obtain ⟨h31, hts⟩ := toSigned_lt_two_pow_31 v hv hneg
    rw [hts]
    refine ⟨by simpa using h31, by simp⟩
  have hc1 := hcnt 0 (by norm_num) (by simpa using hg1)
  have hc2 := hcnt 1 (by norm_num) (by simpa using hg2)
  have hc3 := hcnt 2 (by norm_num) (by simpa using hg3)
  have hc4 := hcnt 3 (by norm_num) (by simpa using hg4)
  have hc5 := hcnt 4 (by norm_num) (by simpa using hg5)
  have hc6 := hcnt 5 (by norm_num) (by simpa using hg6)
  have hc7 := hcnt 6 (by norm_num) (by simpa using hg7)
  -- short names for the seven decoded counts
  set nn := ((decodeInts e 7 hdrB).getD 0 0).toNat with hnn
  set nt := ((decodeInts e 7 hdrB).getD 1 0).toNat with hnt
  set nq := ((decodeInts e 7 hdrB).getD 2 0).toNat with hnq
  set ntt := ((decodeInts e 7 hdrB).getD 3 0).toNat with hntt
  set np5 := ((decodeInts e 7 hdrB).getD 4 0).toNat with hnp5
  set np6 := ((decodeInts e 7 hdrB).getD 5 0).toNat with hnp6
  set nh := ((decodeInts e 7 hdrB).getD 6 0).toNat with hnh
  -- per-block facts
  obtain ⟨hleN, heqN, hlenN, hmemN⟩ := readExact_ok _ _ _ _ hBn
  obtain ⟨hleT, heqT, hlenT, hmemT⟩ := readExact_ok _ _ _ _ hBt
  obtain ⟨hleQ, heqQ, hlenQ, hmemQ⟩ := readExact_ok _ _ _ _ hBq
  obtain ⟨hleP, heqP, hlenP, hmemP⟩ := readExact_ok _ _ _ _ hBp
  obtain ⟨hleTT, heqTT, hlenTT, hmemTT⟩ := readExact_ok _ _ _ _ hBtet
  obtain ⟨hle5, heq5, hlen5, hmem5⟩ := readExact_ok _ _ _ _ hB5
  obtain ⟨hle6, heq6, hlen6, hmem6⟩ := readExact_ok _ _ _ _ hB6
  obtain ⟨hleH, heqH, hlenH, hmemH⟩ := readExact_ok _ _ _ _ hBh
  -- the stream is exactly the concatenation of the nine blocks
  have d0 := stream_decomp _ _ _ _ hhdr
  have d1 := stream_decomp _ _ _ _ hBn
  have d2 := stream_decomp _ _ _ _ hBt
  have d3 := stream_decomp _ _ _ _ hBq
  have d4 := stream_decomp _ _ _ _ hBp
  have d5 := stream_decomp _ _ _ _ hBtet
  have d6 := stream_decomp _ _ _ _ hB5
  have d7 := stream_decomp _ _ _ _ hB6
  have d8 := stream_decomp _ _ _ _ hBh
  have hfin : s.drop (28 + nn * 3 * nfloat + nt * 3 * 4 + nq * 4 * 4 +
      (nq + nt) * 4 + ntt * 4 * 4 + np5 * 5 * 4 + np6 * 6 * 4 + nh * 8 * 4) = [] := by
    rw [hn, hlen]
    exact List.drop_length s
  have hs : s = hdrB ++ (nodesB ++ (trisB ++ (quadsB ++ (pidsB ++
      (tetsB ++ (p5B ++ (p6B ++ hexB))))))) := by
    have e0 : s = s.drop 0 := (List.drop_zero s).symm
    rw [e0, d0, show (0 + 7 * 4 : Nat) = 28 by norm_num, d1, d2, d3, d4,
      d5, d6, d7, d8, hfin, List.append_nil]
  subst hm
  simp only [length_chunkListN] at hshells hsolids
  have hpack : packable nfloat
      { nodes := chunkListN nn 3 (decodeWords e (nn * 3) nfloat nodesB)
        tris := chunkListN nt 3 (decodeInts e (nt * 3) trisB)
        quads := chunkListN nq 4 (decodeInts e (nq * 4) quadsB)
        pids := decodeInts e (nq + nt) pidsB
        tets := chunkListN ntt 4 (decodeInts e (ntt * 4) tetsB)
        penta5s := chunkListN np5 5 (decodeInts e (np5 * 5) p5B)
        penta6s := chunkListN np6 6 (decodeInts e (np6 * 6) p6B)
        hexas := chunkListN nh 8 (decodeInts e (nh * 8) hexB) } = true := by
    unfold packable
    simp only [length_chunkListN, length_decodeInts, List.all_eq_true,
      Bool.and_eq_true, decide_eq_true_eq]
    repeat' apply And.intro
    · exact hc1.1
    · exact hc2.1
    · exact hc3.1
    · exact hc4.1
    · exact hc5.1
    · exact hc6.1
    · exact hc7.1
    · exact chunk_rows_nodes e nn nfloat nodesB hlenN
        (fun x hx => hbytes x (hmemN x hx))
    · exact chunk_rows_int32ok e nt 3 trisB hlenT
        (fun x hx => hbytes x (hmemT x hx))
    · exact chunk_rows_int32ok e nq 4 quadsB hlenQ
        (fun x hx => hbytes x (hmemQ x hx))
    · omega
    · intro x hx
      obtain ⟨v, hv, hveq⟩ := decodeInts_entry e (nq + nt) pidsB hlenP
        (fun y hy => hbytes y (hmemP y hy)) x hx
      rw [hveq]
      exact int32ok_toSigned v hv
    · exact chunk_rows_int32ok e ntt 4 tetsB hlenTT
        (fun x hx => hbytes x (hmemTT x hx))
    · exact chunk_rows_int32ok e np5 5 p5B hlen5
        (fun x hx => hbytes x (hmem5 x hx))
    · exact chunk_rows_int32ok e np6 6 p6B hlen6
        (fun x hx => hbytes x (hmem6 x hx))
    · exact chunk_rows_int32ok e nh 8 hexB hlenH
        (fun x hx => hbytes x (hmemH x hx))
  have hdrEq : encodeInts e ([nn, nt, nq, ntt, np5, np6, nh].map Int.ofNat) =
      hdrB := by
    have hseven := list_eq_seven (decodeInts e 7 hdrB) 0 h7
    have hlist : ([nn, nt, nq, ntt, np5, np6, nh].map Int.ofNat) =
        decodeInts e 7 hdrB := by
      conv_rhs => rw [hseven]
      simp only [List.map_cons, List.map_nil, List.cons.injEq, and_true]
      exact ⟨hc1.2, hc2.2, hc3.2, hc4.2, hc5.2, hc6.2, hc7.2⟩
    rw [hlist]
    exact encodeInts_decodeInts e 7 hdrB (by rw [hlen0]) hhb
  have nodesEq : encodeWords e nfloat
      (chunkListN nn 3 (decodeWords e (nn * 3) nfloat nodesB)).flatten =
      nodesB := by
    rw [flatten_chunkListN nn 3 _ (length_decodeWords e (nn * 3) nfloat nodesB)]
    exact encodeWords_decodeWords e (nn * 3) nfloat nodesB hlenN
      (fun x hx => hbytes x (hmemN x hx))
  have trisEq : encodeInts e
      (chunkListN nt 3 (decodeInts e (nt * 3) trisB)).flatten = trisB := by
    rw [flatten_chunkListN nt 3 _ (length_decodeInts e (nt * 3) trisB)]
    exact encodeInts_decodeInts e (nt * 3) trisB hlenT
      (fun x hx => hbytes x (hmemT x hx))
  have quadsEq : encodeInts e
      (chunkListN nq 4 (decodeInts e (nq * 4) quadsB)).flatten = quadsB := by
    rw [flatten_chunkListN nq 4 _ (length_decodeInts e (nq * 4) quadsB)]
    exact encodeInts_decodeInts e (nq * 4) quadsB hlenQ
      (fun x hx => hbytes x (hmemQ x hx))
  have pidsEq : encodeInts e (decodeInts e (nq + nt) pidsB) = pidsB :=
    encodeInts_decodeInts e (nq + nt) pidsB hlenP
      (fun x hx => hbytes x (hmemP x hx))
  have tetsEq : encodeInts e
      (chunkListN ntt 4 (decodeInts e (ntt * 4) tetsB)).flatten = tetsB := by
    rw [flatten_chunkListN ntt 4 _ (length_decodeInts e (ntt * 4) tetsB)]
    exact encodeInts_decodeInts e (ntt * 4) tetsB hlenTT
      (fun x hx => hbytes x (hmemTT x hx))
  have p5Eq : encodeInts e
      (chunkListN np5 5 (decodeInts e (np5 * 5) p5B)).flatten = p5B := by
    rw [flatten_chunkListN np5 5 _ (length_decodeInts e (np5 * 5) p5B)]
    exact encodeInts_decodeInts e (np5 * 5) p5B hlen5
      (fun x hx => hbytes x (hmem5 x hx))
  have p6Eq : encodeInts e
      (chunkListN np6 6 (decodeInts e (np6 * 6) p6B)).flatten = p6B := by
    rw [flatten_chunkListN np6 6 _ (length_decodeInts e (np6 * 6) p6B)]
    exact encodeInts_decodeInts e (np6 * 6) p6B hlen6
      (fun x hx => hbytes x (hmem6 x hx))
  have hexEq : encodeInts e
      (chunkListN nh 8 (decodeInts e (nh * 8) hexB)).flatten = hexB := by
    rw [flatten_chunkListN nh 8 _ (length_decodeInts e (nh * 8) hexB)]
    exact encodeInts_decodeInts e (nh * 8) hexB hlenH
      (fun x hx => hbytes x (hmemH x hx))
  unfold write_ugrid
  dsimp only
  simp only [length_chunkListN, length_decodeInts]
  rw [if_neg (by omega), if_neg (by omega), if_pos hpack]
  rw [hdrEq, nodesEq, trisEq, quadsEq, pidsEq, tetsEq, p5Eq, p6Eq, hexEq, hs]
  simp [List.append_assoc]

/-- Witness for C1: the concrete 72-byte sample stream decodes to
`sampleMesh` and re-encodes to itself. -/
theorem read_write_roundtrip_witness :
    (∀ x ∈ sampleStream, x < 256) ∧
    write_ugrid Endian.big 4 sampleMesh = .ok sampleStream :=
  ⟨by decide, read_write_roundtrip Endian.big 4 sampleStream sampleMesh 72
    (by decide) (by rfl) (by rfl) (by decide) (by decide)⟩

/-- Appending bytes to a stream never invalidates a block read that
already succeeded: `file.read` simply leaves the extra bytes unread. -/
theorem readExact_append (s j : List Nat) (off k : Nat) (b : List Nat)
    (h : readExact s off k = .ok b) :
    readExact (s ++ j) off k = .ok b := by
  obtain ⟨hle, hb, hblen, -⟩ := readExact_ok s off k b h
  unfold readExact
  rw [if_pos (by rw [List.length_append]; omega)]
  rw [List.drop_append_of_le_length (by omega)]
  rw [List.take_append_of_le_length (by rw [List.length_drop]; omega), hb]

/-- C7 (amended): `read_ugrid` never detects trailing extra bytes.  Its
final `assert self.n == ugrid_file.tell()` compares two counters that
track exactly the same reads, so decoding a stream with arbitrary junk
appended succeeds with the very same mesh and byte count as decoding the
exact stream; a block that runs past the end of the file still fails at
`struct.unpack`, but no comparison against the file's total length is
ever made. -/
theorem read_ugrid_accepts_trailing_bytes (e : Endian) (nfloat : Nat)
    (s junk : List Nat) (m : Mesh) (n : Nat)
    (h : read_ugrid e nfloat s = .ok (m, n)) :
    read_ugrid e nfloat (s ++ junk) = .ok (m, n) := by
  unfold read_ugrid at h
  split at h
  · simp at h
  rename_i hnf4
  split at h
  · simp at h
  rename_i hdrB hhdr
  dsimp only at h
  split at h
  · simp at h
  rename_i hpos
  split at h
  · simp at h
  rename_i nodesB hBn
  split at h
  · simp at h
  rename_i trisB hBt
  split at h
  · simp at h
  rename_i quadsB hBq
  split at h
  · simp at h
  rename_i pidsB hBp
  split at h
  · simp at h
  rename_i tetsB hBtet
  split at h
  · simp at h
  rename_i p5B hB5
  split at h
  · simp at h
  rename_i p6B hB6
  split at h
  · simp at h
  rename_i hexB hBh
  unfold read_ugrid
  rw [if_neg hnf4]
  simp only [readExact_append s junk _ _ _ hhdr]
  rw [if_neg hpos]
  simp only [readExact_append s junk _ _ _ hBn,
    readExact_append s junk _ _ _ hBt,
    readExact_append s junk _ _ _ hBq,
    readExact_append s junk _ _ _ hBp,
    readExact_append s junk _ _ _ hBtet,
    readExact_append s junk _ _ _ hB5,
    readExact_append s junk _ _ _ hB6,
    readExact_append s junk _ _ _ hBh]
  exact h

/-- Witness for C7: a stream of 28 zero bytes decodes to the empty mesh
consuming 28 bytes, and stays accepted after a junk byte is appended. -/
theorem read_ugrid_accepts_trailing_bytes_witness :
    read_ugrid Endian.big 4 (List.replicate 28 0 ++ [255]) =
      .ok (⟨[], [], [], [], [], [], [], []⟩, 28) :=
  read_ugrid_accepts_trailing_bytes Endian.big 4 (List.replicate 28 0) [255]
    ⟨[], [], [], [], [], [], [], []⟩ 28 (by rfl)

/-- Counterexample for C7 as stated: this 29-byte stream holds one more
byte than its blocks account for (the blocks consume 28), yet
`read_ugrid` returns the decoded mesh without any error. -/
theorem read_ugrid_no_eof_check_counterexample :
    (List.replicate 28 (0 : Nat) ++ [255]).length = 29 ∧
    read_ugrid Endian.big 4 (List.replicate 28 0 ++ [255]) =
      .ok (⟨[], [], [], [], [], [], [], []⟩, 28) :=
  ⟨by decide, by rfl⟩

/-- C8: `write_ugrid` rejects a mesh with no surface elements or no
volume elements through the two `assert` statements that run before the
output file is opened -- so before any bytes are produced -- and a mesh
with both counts positive passes that check (it yields a byte stream
whenever every `struct.pack` call can represent its data). -/
theorem write_ugrid_precondition (e : Endian) (nfloat : Nat) (m : Mesh) :
    ((m.tris.length + m.quads.length = 0 ∨
      m.tets.length + m.penta5s.length + m.penta6s.length +
        m.hexas.length = 0) →
      write_ugrid e nfloat m = .error (.assertionError [])) ∧
    (0 < m.tris.length + m.quads.length →
      0 < m.tets.length + m.penta5s.length + m.penta6s.length +
        m.hexas.length →
      packable nfloat m = true →
      ∃ bs, write_ugrid e nfloat m = .ok bs) := by
  constructor
  · intro h
    unfold write_ugrid
    dsimp only
    rcases h with h | h
    · rw [if_pos h]
    · by_cases h1 : m.tris.length + m.quads.length = 0
      · rw [if_pos h1]
      · rw [if_neg h1, if_pos h]
  · intro h1 h2 hp
    unfold write_ugrid
    dsimp only
    rw [if_neg (by omega), if_neg (by omega), if_pos hp]
    exact ⟨_, rfl⟩

/-- Witness for C8: the empty mesh is rejected by the assertion stage,
and the sample mesh (one triangle, one tetrahedron) passes it. -/
theorem write_ugrid_precondition_witness :
    write_ugrid Endian.big 4 ⟨[], [], [], [], [], [], [], []⟩ =
      .error (.assertionError []) ∧
    ∃ bs, write_ugrid Endian.big 4 sampleMesh = .ok bs :=
  ⟨(write_ugrid_precondition Endian.big 4 ⟨[], [], [], [], [], [], [], []⟩).1
      (Or.inl (by decide)),
    (write_ugrid_precondition Endian.big 4 sampleMesh).2 (by decide)
      (by decide) (by decide)⟩

/-- C10: `check_hanging_nodes` raises `RuntimeError` for every mesh
with no volume elements at all, whatever `stop_on_diff` is: the empty
`nids` accumulator is rejected before the strictness flag is ever
consulted. -/
theorem check_hanging_nodes_no_volume (m : Mesh) (sod : Bool)
    (h1 : m.tets = []) (h2 : m.penta5s = []) (h3 : m.penta6s = [])
    (h4 : m.hexas = []) :
    check_hanging_nodes m sod = .error .runtimeError := by
  unfold check_hanging_nodes nidParts
  simp [h1, h2, h3, h4]

/-- Witness for C10: the empty mesh is rejected even with
`stop_on_diff=False`. -/
theorem check_hanging_nodes_no_volume_witness :
    check_hanging_nodes ⟨[], [], [], [], [], [], [], []⟩ false =
      .error .runtimeError :=
  check_hanging_nodes_no_volume ⟨[], [], [], [], [], [], [], []⟩ false
    rfl rfl rfl rfl

theorem firstBadRow_none (a : Nat) (rows : List (List Int))
    (hf : firstBadRow a rows = none) :
    ∀ r ∈ rows, (sortDedup r).length = a := by
  intro r hr
  have := List.find?_eq_none.mp hf r hr
  simpa using this

theorem firstBadRow_some (a : Nat) (rows : List (List Int)) (t : List Int)
    (hf : firstBadRow a rows = some t) :
    t ∈ rows ∧ (sortDedup t).length ≠ a := by
  refine ⟨List.mem_of_find?_eq_some hf, ?_⟩
  have := List.find?_some hf
  simpa using this

/-- C3 (amended): for a mesh with at least one volume element and exact
node coverage, `check_hanging_nodes` succeeds exactly when every
triangle, tetrahedron, pyramid, prism and hexahedron has distinct
vertices equal to its arity.  Quads are absent from the right-hand side:
the source's quad assert is commented out, so a degenerate quad is only
printed, never raised. -/
theorem check_hanging_nodes_degeneracy (m : Mesh) (sod : Bool)
    (hvol : nidParts m ≠ [])
    (hcov : (volumeNids m).length = m.nodes.length) :
    check_hanging_nodes m sod = .ok [] ↔
      ((∀ r ∈ m.tris, (sortDedup r).length = 3) ∧
       (∀ r ∈ m.tets, (sortDedup r).length = 4) ∧
       (∀ r ∈ m.penta5s, (sortDedup r).length = 5) ∧
       (∀ r ∈ m.penta6s, (sortDedup r).length = 6) ∧
       (∀ r ∈ m.hexas, (sortDedup r).length = 8)) := by
  unfold check_hanging_nodes
  rw [if_neg (fun hl => hvol (List.length_eq_zero.mp hl))]
  dsimp only
  rw [if_neg (fun hne => hne hcov.symm)]
  dsimp only
  cases hf1 : firstBadRow 3 m.tris with
  | some t =>
    simp only [hf1]
    constructor
    · intro h; simp at h
    · intro hR
      exact absurd (hR.1 t (firstBadRow_some 3 m.tris t hf1).1)
        (firstBadRow_some 3 m.tris t hf1).2
  | none =>
  cases hf2 : firstBadRow 4 m.tets with
  | some t =>
    simp only [hf1, hf2]
    constructor
    · intro h; simp at h
    · intro hR
      exact absurd (hR.2.1 t (firstBadRow_some 4 m.tets t hf2).1)
        (firstBadRow_some 4 m.tets t hf2).2
  | none =>
  cases hf3 : firstBadRow 5 m.penta5s with
  | some t =>
    simp only [hf1, hf2, hf3]
    constructor
    · intro h; simp at h
    · intro hR
      exact absurd (hR.2.2.1 t (firstBadRow_some 5 m.penta5s t hf3).1)
        (firstBadRow_some 5 m.penta5s t hf3).2
  | none =>
  cases hf4 : firstBadRow 6 m.penta6s with
  | some t =>
    simp only [hf1, hf2, hf3, hf4]
    constructor
    · intro h; simp at h
    · intro hR
      exact absurd (hR.2.2.2.1 t (firstBadRow_some 6 m.penta6s t hf4).1)
        (firstBadRow_some 6 m.penta6s t hf4).2
  | none =>
  cases hf5 : firstBadRow 8 m.hexas with
  | some t =>
    simp only [hf1, hf2, hf3, hf4, hf5]
    constructor
    · intro h; simp at h
    · intro hR
      exact absurd (hR.2.2.2.2 t (firstBadRow_some 8 m.hexas t hf5).1)
        (firstBadRow_some 8 m.hexas t hf5).2
  | none =>
    simp only [hf1, hf2, hf3, hf4, hf5]
    constructor
    · intro _
      exact ⟨firstBadRow_none 3 m.tris hf1, firstBadRow_none 4 m.tets hf2,
        firstBadRow_none 5 m.penta5s hf3, firstBadRow_none 6 m.penta6s hf4,
        firstBadRow_none 8 m.hexas hf5⟩
    · intro _; trivial

/-- Counterexample for C3 as stated: a mesh containing a quad with a
repeated vertex (3 distinct ids instead of 4) passes
`check_hanging_nodes` without any error. -/
theorem degenerate_quad_not_raised_counterexample :
    degenerateQuadMesh.quads = [[1, 2, 3, 3]] ∧
    (sortDedup [1, 2, 3, 3]).length = 3 ∧
    check_hanging_nodes degenerateQuadMesh true = .ok [] :=
  ⟨rfl, by decide, by rfl⟩

/-- Witness for C3's amended theorem at the concrete degenerate-quad
mesh. -/
theorem check_hanging_nodes_degeneracy_witness :
    check_hanging_nodes degenerateQuadMesh true = .ok [] ↔
      ((∀ r ∈ degenerateQuadMesh.tris, (sortDedup r).length = 3) ∧
       (∀ r ∈ degenerateQuadMesh.tets, (sortDedup r).length = 4) ∧
       (∀ r ∈ degenerateQuadMesh.penta5s, (sortDedup r).length = 5) ∧
       (∀ r ∈ degenerateQuadMesh.penta6s, (sortDedup r).length = 6) ∧
       (∀ r ∈ degenerateQuadMesh.hexas, (sortDedup r).length = 8)) :=
  check_hanging_nodes_degeneracy degenerateQuadMesh true (by decide) (by decide)

/-- C9: the public skinning entry point never returns normally.  For
every mesh, `skin_solids` raises before reaching its `return` statement:
the triangle deduplication rebinds the face array to the `None` result
of an in-place sort and then calls `.sort()` on that `None`, and the
function ends in an unconditional `raise NotImplementedError()` anyway,
so no caller can obtain the documented `(tris, quads)` pair. -/
theorem skin_solids_never_returns (m : Mesh) :
    ∀ r, skin_solids m ≠ .ok r := by
  intro r
  unfold skin_solids inPlaceSortResult
  simp

theorem classifyTriFace_some (m : Mesh) (face : List Int) (e1 e2 : Nat)
    (a : List Int × Nat × Nat)
    (h : classifyTriFace m face e1 e2 = .ok (some a)) :
    a = (face, e1, e2) ∨ a = (face, e2, e1) := by
  unfold classifyTriFace at h
  dsimp only at h
  split at h
  · split at h
    · simp at h
    · split at h
      · simp at h
      · split at h
        · left
          simp only [Except.ok.injEq, Option.some.injEq] at h
          exact h.symm
        · right
          simp only [Except.ok.injEq, Option.some.injEq] at h
          exact h.symm
  · split at h
    · simp at h
    · simp at h

theorem classifyEntries_cons_two (m : Mesh) (f0 : List Int) (a1 a2 : Nat)
    (tl : FaceMap) :
    classifyEntries m ((f0, [a1, a2]) :: tl) =
      match classifyTriFace m f0 a1 a2 with
      | .error er => .error er
      | .ok none => classifyEntries m tl
      | .ok (some a) =>
        match classifyEntries m tl with
        | .error er => .error er
        | .ok l => .ok (a :: l) := rfl

theorem classifyEntries_mem (m : Mesh) (L : FaceMap)
    (l : List (List Int × Nat × Nat)) (hok : classifyEntries m L = .ok l)
    (f : List Int) (o nb : Nat) (hmem : (f, o, nb) ∈ l) :
    ∃ e1 e2, (f, [e1, e2]) ∈ L ∧
      ((o, nb) = (e1, e2) ∨ (o, nb) = (e2, e1)) := by
  induction L generalizing l with
  | nil =>
    unfold classifyEntries at hok
    simp only [Except.ok.injEq] at hok
    subst hok
    simp at hmem
  | cons hd tl ih =>
    obtain ⟨f0, es0⟩ := hd
    rcases es0 with _ | ⟨a1, es1⟩
    · unfold classifyEntries at hok
      simp at hok
    rcases es1 with _ | ⟨a2, es2⟩
    · -- one contributor: the loop skips this entry
      have hok2 : classifyEntries m tl = .ok l := hok
      obtain ⟨e1, e2, hm, hor⟩ := ih l hok2 hmem
      exact ⟨e1, e2, List.mem_cons_of_mem _ hm, hor⟩
    rcases es2 with _ | ⟨a3, es3⟩
    · -- two contributors
      rw [classifyEntries_cons_two] at hok
      cases hc : classifyTriFace m f0 a1 a2 with
      | error er => rw [hc] at hok; simp at hok
      | ok oa =>
        cases oa with
        | none =>
          rw [hc] at hok
          obtain ⟨e1, e2, hm, hor⟩ := ih l hok hmem
          exact ⟨e1, e2, List.mem_cons_of_mem _ hm, hor⟩
        | some a =>
          rw [hc] at hok
          cases hl : classifyEntries m tl with
          | error er => rw [hl] at hok; simp at hok
          | ok l2 =>
            rw [hl] at hok
            simp only [Except.ok.injEq] at hok
            subst hok
            rcases List.mem_cons.mp hmem with hhead | htail
            · rcases classifyTriFace_some m f0 a1 a2 a hc with hc2 | hc2
              · rw [hc2] at hhead
                simp only [Prod.mk.injEq] at hhead
                obtain ⟨hf, ho, hnb⟩ := hhead
                subst hf
                exact ⟨a1, a2, List.mem_cons_self _ _,
                  Or.inl (by simp [ho, hnb])⟩
              · rw [hc2] at hhead
                simp only [Prod.mk.injEq] at hhead
                obtain ⟨hf, ho, hnb⟩ := hhead
                subst hf
                exact ⟨a1, a2, List.mem_cons_self _ _,
                  Or.inr (by simp [ho, hnb])⟩
            · obtain ⟨e1, e2, hm, hor⟩ := ih l2 hl htail
              exact ⟨e1, e2, List.mem_cons_of_mem _ hm, hor⟩
    · unfold classifyEntries at hok
      simp at hok

/-- C2 (amended): every `(face, owner, neighbor)` assignment the
face-classification loop makes pairs the two contributing element ids of
that canonical face, in an order decided by the orientation test
(`allclose(face, faces1_unsorted[n1])`) -- owner is the lower id only
when the stored unsorted row happens to equal the sorted canonical
tuple, so `owner < neighbor` is not guaranteed. -/
theorem write_faces_owner (m : Mesh) (f : List Int) (o nb : Nat)
    (l : List (List Int × Nat × Nat))
    (hok : write_faces m = .ok l) (hmem : (f, o, nb) ∈ l) :
    ∃ e1 e2, (f, [e1, e2]) ∈ triFaceToEids m ∧
      ((o, nb) = (e1, e2) ∨ (o, nb) = (e2, e1)) := by
  unfold write_faces at hok
  dsimp only at hok
  split at hok
  · simp at hok
  · exact classifyEntries_mem m (triFaceToEids m) l hok f o nb hmem

/-- Counterexample for C2 as stated: in this three-tetrahedron mesh the
single interior face `[0,1,2]` (shared by elements 2 and 3) is assigned
owner 3 and neighbor 2, because element 2's stored row `[2,1,0]` is not
in sorted order -- so `owner < neighbor` fails. -/
theorem write_faces_owner_counterexample :
    write_faces cexOwnerMesh = .ok [([0, 1, 2], 3, 2)] ∧ (2 : Nat) < 3 :=
  ⟨by rfl, by decide⟩

/-- Witness for C2's amended theorem at the concrete mesh: the assigned
pair (3, 2) is the two contributors of face `[0,1,2]` in some order. -/
theorem write_faces_owner_witness :
    ∃ e1 e2, (([0, 1, 2] : List Int), [e1, e2]) ∈ triFaceToEids cexOwnerMesh ∧
      (((3 : Nat), (2 : Nat)) = (e1, e2) ∨ ((3 : Nat), (2 : Nat)) = (e2, e1)) :=
  write_faces_owner cexOwnerMesh [0, 1, 2] 3 2 [([0, 1, 2], 3, 2)]
    (by rfl) (by decide)

theorem classifyEntries_err (m : Mesh) (L : FaceMap)
    (h : ∃ f es, (f, es) ∈ L ∧ 3 ≤ es.length) :
    ∃ er, classifyEntries m L = .error er := by
  induction L with
  | nil =>
    obtain ⟨f, es, hmem, -⟩ := h
    simp at hmem
  | cons hd tl ih =>
    obtain ⟨f0, es0⟩ := hd
    obtain ⟨f, es, hmem, h3⟩ := h
    rcases List.mem_cons.mp hmem with heq | htl
    · -- the oversubscribed key is this entry
      injection heq with hf hes
      subst hf; subst hes
      rcases es with _ | ⟨a1, _ | ⟨a2, _ | ⟨a3, rest⟩⟩⟩
      · simp at h3
      · simp at h3
      · simp at h3
      · exact ⟨.valueError, rfl⟩
    · -- the oversubscribed key sits further along; every earlier entry
      -- either errors out itself or lets the loop continue
      rcases es0 with _ | ⟨a1, _ | ⟨a2, _ | ⟨a3, rest⟩⟩⟩
      · exact ⟨.valueError, rfl⟩
      · obtain ⟨er, he⟩ := ih ⟨f, es, htl, h3⟩
        exact ⟨er, he⟩
      · cases hc : classifyTriFace m f0 a1 a2 with
        | error er =>
          refine ⟨er, ?_⟩
          rw [classifyEntries_cons_two, hc]
        | ok oa =>
          obtain ⟨er, he⟩ := ih ⟨f, es, htl, h3⟩
          cases oa with
          | none =>
            refine ⟨er, ?_⟩
            rw [classifyEntries_cons_two, hc]
            exact he
          | some a =>
            refine ⟨er, ?_⟩
            rw [classifyEntries_cons_two, hc, he]
      · exact ⟨.valueError, rfl⟩

/-- C4 (amended): a canonical tri-face key with three or more
contributing elements always makes `_write_faces` fail -- but through
the generic `e1, e2 = eids` tuple-unpacking `ValueError` (or an error on
an even earlier entry), never through a named non-manifold error; and
only triangular keys are examined at all. -/
theorem write_faces_tri_nonmanifold (m : Mesh)
    (h : ∃ f es, (f, es) ∈ triFaceToEids m ∧ 3 ≤ es.length) :
    ∃ er, write_faces m = .error er := by
  unfold write_faces
  dsimp only
  split
  · exact ⟨.assertionError [], rfl⟩
  · exact classifyEntries_err m (triFaceToEids m) h

/-- Counterexample for C4 as stated: three hexahedra share the quad
face `[0,1,2,3]` (three contributors in the quad map), yet
`_write_faces` completes without raising anything -- the quad map is
never iterated. -/
theorem write_faces_quad_nonmanifold_counterexample :
    (([0, 1, 2, 3] : List Int), ([1, 2, 3] : List Nat)) ∈
      quadFaceToEids hex3Mesh ∧
    write_faces hex3Mesh = .ok [] :=
  ⟨by decide, by rfl⟩

/-- Witness for C4's amended theorem: three tetrahedra sharing the tri
face `[0,1,2]` make `_write_faces` fail. -/
theorem write_faces_tri_nonmanifold_witness :
    ∃ er, write_faces tet3SharedMesh = .error er :=
  write_faces_tri_nonmanifold tet3SharedMesh
    ⟨[0, 1, 2], [1, 2, 3], by decide, by decide⟩

theorem map_succ_range' (c k : Nat) :
    (List.range' c k).map Nat.succ = List.range' (c + 1) k := by
  induction k generalizing c with
  | zero => rfl
  | succ k ih => rw [List.range'_succ, List.range'_succ, List.map_cons, ih]

theorem wherePositions_sorted (S : List Int) (u : Int)
    (hs : List.Sorted (fun a b => a ≤ b) S) :
    wherePositions S u =
      List.range' (S.countP (fun x => x < u)) (S.countP (fun x => x = u)) := by
  induction S with
  | nil => rfl
  | cons a S ih =>
    have hsa : ∀ b ∈ S, a ≤ b := (List.sorted_cons.mp hs).1
    have hs2 := (List.sorted_cons.mp hs).2
    have htail : (List.range S.length).filter
        (fun i => decide (S.getD i 0 = u)) =
        List.range' (S.countP (fun x => x < u))
          (S.countP (fun x => x = u)) := ih hs2
    show (List.range (S.length + 1)).filter
        (fun i => decide ((a :: S).getD i 0 = u)) = _
    rw [List.range_succ_eq_map, List.filter_cons, List.filter_map]
    have hcomp : ((fun i => decide ((a :: S).getD i 0 = u)) ∘ Nat.succ) =
        (fun i => decide (S.getD i 0 = u)) := by
      funext i
      simp [List.getD_cons_succ]
    rw [hcomp, htail]
    rcases lt_trichotomy a u with hau | hau | hau
    · -- a < u: one more "smaller" entry in front, same equal run shifted
      have hne : ¬ (a = u) := ne_of_lt hau
      rw [List.countP_cons, List.countP_cons]
      rw [if_neg (by simp [hne]), map_succ_range']
      have h1 : (if decide (a < u) = true then 1 else 0) = 1 := by simp [hau]
      have h2 : (if decide (a = u) = true then 1 else 0) = 0 := by simp [hne]
      rw [h1, h2]
      simp
    · -- a = u: index 0 joins the equal run, nothing is below u
      have hclt : S.countP (fun x => decide (x < u)) = 0 := by
        rw [List.countP_eq_zero]
        intro b hb
        simp only [decide_eq_true_eq]
        exact not_lt.mpr (hau ▸ hsa b hb)
      rw [List.countP_cons, List.countP_cons]
      rw [if_pos (by simp [hau]), map_succ_range', hclt]
      have h1 : (if decide (a < u) = true then 1 else 0) = 0 := by simp [hau]
      have h2 : (if decide (a = u) = true then 1 else 0) = 1 := by simp [hau]
      rw [h1, h2, Nat.add_zero, List.range'_succ]
    · -- u < a: every entry is above u, the index set is empty
      have hne : ¬ (a = u) := ne_of_gt hau
      have hclt : S.countP (fun x => decide (x < u)) = 0 := by
        rw [List.countP_eq_zero]
        intro b hb
        simp only [decide_eq_true_eq]
        exact not_lt.mpr (le_of_lt (lt_of_lt_of_le hau (hsa b hb)))
      have hceq : S.countP (fun x => decide (x = u)) = 0 := by
        rw [List.countP_eq_zero]
        intro b hb
        simp only [decide_eq_true_eq]
        exact ne_of_gt (lt_of_lt_of_le hau (hsa b hb))
      rw [List.countP_cons, List.countP_cons]
      rw [if_neg (by simp [hne]), map_succ_range', hclt, hceq]
      have h1 : (if decide (a < u) = true then 1 else 0) = 0 := by
        simp [not_lt.mpr (le_of_lt hau)]
      have h2 : (if decide (a = u) = true then 1 else 0) = 0 := by simp [hne]
      rw [h1, h2]
      simp [List.range']

theorem foldl_min_range' (k c acc : Nat) (h : acc ≤ c) :
    (List.range' c k).foldl min acc = acc := by
  induction k generalizing c acc with
  | zero => rfl
  | succ k ih =>
    rw [List.range'_succ, List.foldl_cons, min_eq_left h]
    exact ih (c + 1) acc (by omega)

theorem foldl_max_range' (k c acc : Nat) :
    (List.range' c (k + 1)).foldl max acc = max acc (c + k) := by
  induction k generalizing c acc with
  | zero => simp [List.range'_succ]
  | succ k ih =>
    rw [List.range'_succ, List.foldl_cons, ih, max_assoc]
    have h1 : max c (c + 1 + k) = c + 1 + k := max_eq_right (by omega)
    have h2 : c + 1 + k = c + (k + 1) := by omega
    rw [h1, h2]

theorem min?_range' (c k : Nat) (hk : 0 < k) :
    (List.range' c k).min? = some c := by
  obtain ⟨k2, rfl⟩ : ∃ k2, k = k2 + 1 := ⟨k - 1, by omega⟩
  rw [List.range'_succ]
  show some ((List.range' (c + 1) k2).foldl min c) = some c
  rw [foldl_min_range' k2 (c + 1) c (by omega)]

theorem max?_range' (c k : Nat) (hk : 0 < k) :
    (List.range' c k).max? = some (c + k - 1) := by
  obtain ⟨k2, rfl⟩ : ∃ k2, k = k2 + 1 := ⟨k - 1, by omega⟩
  rw [List.range'_succ]
  show some ((List.range' (c + 1) k2).foldl max c) = some (c + (k2 + 1) - 1)
  cases k2 with
  | zero => simp
  | succ k3 =>
    rw [foldl_max_range' k3 (c + 1) c]
    have h1 : max c (c + 1 + k3) = c + 1 + k3 := max_eq_right (by omega)
    have h2 : c + 1 + k3 = c + (k3 + 1 + 1) - 1 := by omega
    rw [h1, h2]

theorem boundaryLoop_ok (S : List Int)
    (hs : List.Sorted (fun a b => a ≤ b) S)
    (tag_data : Int → Option String) (us : List Int)
    (h : ∀ u ∈ us, (tag_data u).isSome ∧
      0 < S.countP (fun x => x = u)) :
    boundaryLoop S tag_data us = .ok (us.map (fun u =>
      ((tag_data u).getD "", S.countP (fun x => x = u),
        S.countP (fun x => x < u)))) := by
  induction us with
  | nil => rfl
  | cons u rest ih =>
    obtain ⟨hsome, hpos⟩ := h u (List.mem_cons_self u rest)
    obtain ⟨name, hname⟩ := Option.isSome_iff_exists.mp hsome
    unfold boundaryLoop
    rw [hname]
    dsimp only
    rw [wherePositions_sorted S u hs]
    rw [min?_range' _ _ hpos, max?_range' _ _ hpos]
    rw [List.length_range']
    have hlen : S.countP (fun x => decide (x = u)) =
        S.countP (fun x => decide (x < u)) +
          S.countP (fun x => decide (x = u)) - 1 -
          S.countP (fun x => decide (x < u)) + 1 := by
      omega
    dsimp only
    rw [if_pos hlen]
    rw [ih (fun v hv => h v (List.mem_cons_of_mem _ hv))]
    dsimp only
    have h3 : List.countP (fun x => decide (x < u)) S +
        List.countP (fun x => decide (x = u)) S - 1 -
        List.countP (fun x => decide (x < u)) S + 1 =
        List.countP (fun x => decide (x = u)) S := by
      omega
    simp [hname, h3]

/-- C5 (amended): the aggregator sorts only the `pids` array in place
(the returned mesh is the input mesh with just `pids` replaced by its
sorted version -- the surface-element arrays are not reordered; the
argsort permutation is merely stored on the instance), and for every
distinct patch id the occupied index range of the sorted array is
contiguous: one patch per distinct id, with `start_face_index` the
number of smaller pids and `face_count` the id's multiplicity, and the
sorted slice over that range constantly equal to the id. -/
theorem write_boundary_spec (m : Mesh) (tag_data : Int → Option String)
    (htags : ∀ u ∈ sortDedup m.pids, (tag_data u).isSome) :
    write_boundary m tag_data = .ok ({ m with pids := sortInts m.pids },
      (sortDedup m.pids).map (fun u =>
        ((tag_data u).getD "", (sortInts m.pids).countP (fun x => x = u),
          (sortInts m.pids).countP (fun x => x < u)))) ∧
    (∀ u ∈ sortDedup m.pids, ∀ j,
      (sortInts m.pids).countP (fun x => x < u) ≤ j →
      j < (sortInts m.pids).countP (fun x => x < u) +
        (sortInts m.pids).countP (fun x => x = u) →
      (sortInts m.pids).getD j 0 = u) := by
  have hsorted : List.Sorted (fun a b => a ≤ b) (sortInts m.pids) :=
    List.sorted_insertionSort (fun a b => a ≤ b) m.pids
  have hmemEq : ∀ u, u ∈ sortDedup m.pids →
      0 < (sortInts m.pids).countP (fun x => x = u) := by
    intro u hu
    rw [List.countP_pos_iff]
    exact ⟨u, List.mem_dedup.mp hu, by simp⟩
  constructor
  · unfold write_boundary
    dsimp only
    rw [boundaryLoop_ok (sortInts m.pids) hsorted tag_data
      (sortDedup m.pids) (fun u hu => ⟨htags u hu, hmemEq u hu⟩)]
  · intro u hu j hj1 hj2
    have hjmem : j ∈ wherePositions (sortInts m.pids) u := by
      rw [wherePositions_sorted _ _ hsorted, List.mem_range'_1]
      exact ⟨hj1, hj2⟩
    have := List.of_mem_filter hjmem
    simpa using this

/-- Counterexample for C5 as stated: on a mesh with `pids = [2, 1]` the
aggregator reorders the patch ids to `[1, 2]` but leaves the two
triangle rows in their original order -- the claimed "same permutation
applied to both arrays" would have swapped them to
`[[4,5,6],[1,2,3]]`. -/
theorem write_boundary_counterexample :
    write_boundary unsortedPidsMesh (fun _ => some "p") =
      .ok ({ unsortedPidsMesh with pids := [1, 2] },
        [("p", 1, 0), ("p", 1, 1)]) ∧
    ({ unsortedPidsMesh with pids := [1, 2] } : Mesh).tris =
      [[1, 2, 3], [4, 5, 6]] ∧
    ([[1, 2, 3], [4, 5, 6]] : List (List Int)) ≠ [[4, 5, 6], [1, 2, 3]] :=
  ⟨by rfl, rfl, by decide⟩

/-- Witness for C5's amended theorem at the concrete two-patch mesh. -/
theorem write_boundary_spec_witness :
    write_boundary unsortedPidsMesh (fun _ => some "p") =
      .ok ({ unsortedPidsMesh with pids := sortInts unsortedPidsMesh.pids },
        (sortDedup unsortedPidsMesh.pids).map (fun u =>
          ((some "p" : Option String).getD "",
            (sortInts unsortedPidsMesh.pids).countP (fun x => x = u),
            (sortInts unsortedPidsMesh.pids).countP (fun x => x < u)))) :=
  (write_boundary_spec unsortedPidsMesh (fun _ => some "p")
    (fun _ _ => rfl)).1

end Ugrid
